import Mathlib

/-!
Shallow embedding of the CSV → Ansible dynamic-inventory script
(ansible/inventories/prd-sg1n/hosts.py).

Python rows are dicts from column name to (trimmed) cell string; they are
embedded as association lists with unique keys, looked up first-match.
Python string helpers (str.strip, str.lower, str.split, str.startswith,
lexicographic sorted) are embedded as executable char-list functions below,
restricted to the ASCII data the script manipulates.
-/

namespace Hosts

/-- Python str.strip: drop leading and trailing whitespace. -/
def pyStrip (s : String) : String :=
  ⟨((s.data.dropWhile Char.isWhitespace).reverse.dropWhile Char.isWhitespace).reverse⟩

/-- Python str.lower (ASCII range). -/
def pyLower (s : String) : String := ⟨s.data.map Char.toLower⟩

def splitCommaAux : List Char → List Char → List String
  | [], acc => [⟨acc.reverse⟩]
  | c :: cs, acc =>
    if c = ',' then ⟨acc.reverse⟩ :: splitCommaAux cs [] else splitCommaAux cs (c :: acc)

/-- Python s.split(","): split on every comma, keeping empty pieces. -/
def pySplitComma (s : String) : List String := splitCommaAux s.data []

def isPrefixList : List Char → List Char → Bool
  | [], _ => true
  | _ :: _, [] => false
  | c :: cs, d :: ds => c = d && isPrefixList cs ds

/-- Python s.startswith(pat). -/
def strStarts (s pat : String) : Bool := isPrefixList pat.data s.data

def chLt (c d : Char) : Bool := c.toNat < d.toNat

def strLtAux : List Char → List Char → Bool
  | [], [] => false
  | [], _ :: _ => true
  | _ :: _, [] => false
  | c :: cs, d :: ds => if chLt c d then true else if chLt d c then false else strLtAux cs ds

/-- Lexicographic string order by code point, as Python uses for sorted(). -/
def strLt (a b : String) : Bool := strLtAux a.data b.data

def insertSorted (x : String) : List String → List String
  | [] => [x]
  | y :: ys => if strLt y x then y :: insertSorted x ys else x :: y :: ys

/-- Python sorted() on a list of strings (insertion sort, ascending). -/
def sortStr (l : List String) : List String := l.foldr insertSorted []

/-- Python ", ".join(l). -/
def joinComma : List String → String
  | [] => ""
  | [x] => x
  | x :: y :: xs => x ++ ", " ++ joinComma (y :: xs)

/-- Python dict lookup d.get(k): the value of the first entry with key k. -/
def dget {β : Type} (d : List (String × β)) (k : String) : Option β :=
  match d with
  | [] => none
  | (k', v) :: rest => if k' = k then some v else dget rest k

/-- Python k in d. -/
def containsKey {β : Type} (d : List (String × β)) (k : String) : Bool :=
  (dget d k).isSome

/-- Python d[k] = v: overwrite in place if the key exists, else append. -/
def dictInsert {β : Type} (d : List (String × β)) (k : String) (v : β) : List (String × β) :=
  match d with
  | [] => [(k, v)]
  | (k', v') :: rest => if k' = k then (k, v) :: rest else (k', v') :: dictInsert rest k v

/-- Python truthiness of an optional string (None and the empty string are falsy). -/
def truthy : Option String → Bool
  | none => false
  | some s => decide (s ≠ "")

/-- Boolean membership of a string in a list. -/
def memB (l : List String) (x : String) : Bool := l.any (fun y => decide (y = x))

/-- A parsed CSV row: Python dict column-name → cell value. -/
abbrev Row := List (String × String)

/-- row["vm_name"]; retained rows always carry a non-empty vm_name. -/
def vmName (row : Row) : String := (dget row "vm_name").getD ""

/-- EnvConfig.get_flags: the three grouping feature flags. -/
structure Flags where
  group_by_owner : Bool
  group_by_state : Bool
  group_by_custom : Bool
deriving DecidableEq

def default_flags : Flags := ⟨true, true, true⟩

/-- The built-in state table of EnvConfig._load_state_map. -/
def default_state_map : List (String × String) :=
  [("on", "poweredon"), ("powered-on", "poweredon"), ("poweredon", "poweredon"),
   ("off", "poweredoff"), ("powered-off", "poweredoff"), ("poweredoff", "poweredoff"),
   ("del", "absent"), ("delete", "absent"), ("absent", "absent")]

/-- A parsed INV_STATE_MAP value: json.loads returns a dict (obj) or any other
JSON value (nonObj: list, number, string, ...), which the script keeps as-is. -/
inductive StateMapVal where
  | obj (m : List (String × String))
  | nonObj
deriving DecidableEq

/-- EnvConfig._load_state_map: if the env var is set and non-empty, try to parse
it as JSON and keep whatever value results; on a parse error (or unset/empty
env var) fall back to the built-in table. The JSON parser is a parameter. -/
def load_state_map (parseJson : String → Option StateMapVal) (env : Option String) :
    StateMapVal :=
  match env with
  | none => .obj default_state_map
  | some s =>
    if s ≠ "" then
      match parseJson s with
      | some v => v
      | none => .obj default_state_map
    else .obj default_state_map

/-- DynamicGrouper._normalize_state / AnsibleInventoryBuilder._normalize_state,
for a dict state map: state_map.get(state.strip().lower(), "poweredon"). -/
def normalize_state (m : List (String × String)) (s : String) : String :=
  (dget m (pyLower (pyStrip s))).getD "poweredon"

/-- The same lookup when the state map is not a dict: Python raises
AttributeError (.get on a non-dict), which the orchestrator turns into exit 1. -/
def normalize_stateE (sm : StateMapVal) (s : String) : Except String String :=
  match sm with
  | .obj m => .ok (normalize_state m s)
  | .nonObj => .error "state_map object has no attribute get"

/-- The required CSV columns passed by Application.run to CSVReader. -/
def required_cols : List String := ["vm_name", "vm_state", "vm_ip_addr"]

/-- One DictReader row: pair headers with cells, stripping keys and values. -/
def makeRow (headers : List String) (cells : List String) : Row :=
  (headers.zip cells).map (fun kv => (pyStrip kv.1, pyStrip kv.2))

/-- CSVReader.read on an opened file, given its header list and data records.
Raises (Except.error) on an empty header or missing required columns;
otherwise keeps exactly the rows whose vm_name is non-empty. The non-fatal
duplicate-vm_name warning does not affect the returned rows and is not
modelled. Records are assumed to have one cell per header column. -/
def read (headers : List String) (records : List (List String)) :
    Except String (List Row) :=
  let hs := headers.map pyStrip
  if hs.isEmpty then .error "Empty CSV or missing header"
  else
    let missing := sortStr (required_cols.filter (fun c => !(memB hs c)))
    if missing.isEmpty then
      .ok ((records.map (makeRow headers)).filter (fun row => truthy (dget row "vm_name")))
    else
      .error ("Missing required columns: " ++ joinComma missing)

/-- The grouper state: Python defaultdict(list) mapping group name to hosts,
in insertion order. -/
abbrev Groups := List (String × List String)

/-- groups[g].append(h) on a defaultdict(list). -/
def addHost (gs : Groups) (g : String) (h : String) : Groups :=
  match gs with
  | [] => [(g, [h])]
  | (n, hs) :: rest => if n = g then (n, hs ++ [h]) :: rest else (n, hs) :: addHost rest g h

/-- The custom-group rule of DynamicGrouper.generate_groups (lines 144-149). -/
def applyCustom (flags : Flags) (gs : Groups) (row : Row) : Groups :=
  if flags.group_by_custom && truthy (dget row "vm_groups") then
    (pySplitComma ((dget row "vm_groups").getD "")).foldl
      (fun acc tok =>
        let g := pyStrip tok
        if g ≠ "" then addHost acc g (vmName row) else acc)
      gs
  else gs

/-- The owner rule (lines 151-153). -/
def applyOwner (flags : Flags) (gs : Groups) (row : Row) : Groups :=
  if flags.group_by_owner && truthy (dget row "vm_owner") then
    addHost gs ("owner_" ++ (dget row "vm_owner").getD "") (vmName row)
  else gs

/-- The state rule (lines 155-158); fails when the state map is not a dict. -/
def applyState (flags : Flags) (sm : StateMapVal) (gs : Groups) (row : Row) :
    Except String Groups :=
  if flags.group_by_state && truthy (dget row "vm_state") then
    (normalize_stateE sm ((dget row "vm_state").getD "")).map
      (fun st => addHost gs ("state_" ++ st) (vmName row))
  else .ok gs

/-- The test of the ungrouped fallback (lines 161-162): does the hostname
already sit in some group whose name starts with the literal text vm_. -/
def inVmGroup (gs : Groups) (h : String) : Bool :=
  gs.any (fun p => strStarts p.1 "vm_" && memB p.2 h)

/-- The ungrouped fallback (lines 160-163). -/
def applyFallback (gs : Groups) (row : Row) : Groups :=
  if inVmGroup gs (vmName row) then gs else addHost gs "ungrouped" (vmName row)

/-- One iteration of the row loop of DynamicGrouper.generate_groups. -/
def processRow (flags : Flags) (sm : StateMapVal) (gs : Groups) (row : Row) :
    Except String Groups :=
  (applyState flags sm (applyOwner flags (applyCustom flags gs row) row) row).map
    (fun g3 => applyFallback g3 row)

/-- DynamicGrouper.generate_groups. -/
def generate_groups (flags : Flags) (sm : StateMapVal) (rows : List Row) :
    Except String Groups :=
  rows.foldlM (processRow flags sm) []

/-- vm_uuid handling in AnsibleInventoryBuilder.build (lines 184-185, 197):
the entry is recorded only when the cell is present, non-empty, and not the
case-insensitive text none. -/
def uuidKeep (row : Row) : Option String :=
  let u := (dget row "vm_uuid").getD ""
  if pyLower u = "none" then none else if u = "" then none else some u

/-- The hostvar of one row (lines 188-193): all columns, then ansible_host,
then vmware_state when a vm_state column exists on the row. -/
def hostvarOf (sm : StateMapVal) (row : Row) : Except String Row :=
  let hv := dictInsert row "ansible_host" ((dget row "vm_ip_addr").getD "")
  if containsKey row "vm_state" then
    (normalize_stateE sm ((dget row "vm_state").getD "")).map
      (fun st => dictInsert hv "vmware_state" st)
  else .ok hv

/-- The hostvars/uuid_index loop of AnsibleInventoryBuilder.build (lines 182-198). -/
def buildMeta (sm : StateMapVal) (rows : List Row) :
    Except String (List (String × Row) × List (String × String)) :=
  rows.foldlM
    (fun acc row => do
      let hv ← hostvarOf sm row
      let hostvars := dictInsert acc.1 (vmName row) hv
      let uuidIdx :=
        match uuidKeep row with
        | some u => dictInsert acc.2 u (vmName row)
        | none => acc.2
      pure (hostvars, uuidIdx))
    ([], [])

/-- One value of the flat inventory OrderedDict: the initial _meta entry
holds the hostvars table, a group entry holds a hosts list, and the final
all entry holds the children list plus vars.uuid_index. -/
inductive Entry where
  | meta (hostvars : List (String × Row))
  | groupHosts (hosts : List String)
  | allEntry (children : List String) (uuid_index : List (String × String))
deriving DecidableEq

/-- The assembled inventory document (lines 204-213) is one flat OrderedDict
from key to entry; a group named _meta or all collides with the special
entries under Python dict-assignment semantics. -/
abbrev Document := List (String × Entry)

/-- The group loop of build (lines 207-208): inv[group] = sorted hosts, in
sorted key order, overwriting any earlier entry with the same key. -/
def groupLoop (gs : Groups) (inv : Document) (names : List String) : Document :=
  names.foldl (fun acc g => dictInsert acc g (.groupHosts (sortStr ((dget gs g).getD [])))) inv

/-- AnsibleInventoryBuilder.build: hostvars/uuid loop, group generation, then
the OrderedDict assembly inv[_meta], the group loop, and inv[all] last. -/
def build (flags : Flags) (sm : StateMapVal) (rows : List Row) :
    Except String Document := do
  let meta ← buildMeta sm rows
  let gs ← generate_groups flags sm rows
  let names := sortStr (gs.map Prod.fst)
  pure (dictInsert
    (groupLoop gs (dictInsert [] "_meta" (.meta meta.1)) names)
    "all" (.allEntry names meta.2))

/-- What the script serializes to stdout: the full document or one host object. -/
inductive OutValue where
  | full (inv : Document)
  | hostObj (hv : Row)
deriving DecidableEq

/-- The observable outcome of one run: exit code, stdout payload, stderr line. -/
structure RunResult where
  exitCode : Nat
  stdout : Option OutValue
  stderr : Option String
deriving DecidableEq

/-- inventory.get("_meta", empty).get("hostvars", empty): the hostvars table
of the document, empty when the _meta entry was overwritten by a group. -/
def docHostvars (inv : Document) : List (String × Row) :=
  match dget inv "_meta" with
  | some (.meta hv) => hv
  | _ => []

/-- inventory["all"]["vars"]["uuid_index"], read off the document. -/
def docUuidIndex (inv : Document) : List (String × String) :=
  match dget inv "all" with
  | some (.allEntry _ ui) => ui
  | _ => []

/-- InventoryOutput.print_host:
inventory.get("_meta", empty).get("hostvars", empty).get(hostname, empty). -/
def print_host (inv : Document) (h : String) : OutValue :=
  .hostObj ((dget (docHostvars inv) h).getD [])

/-- Application.run: the pipeline with its exception handling. The CSV file is
given as an optional (headers, records) pair, none meaning FileNotFoundError;
ValueError-class failures exit 2, any other exception exits 1, and stdout is
written only on success. hostArg is args.host, tested for Python truthiness. -/
def run (flags : Flags) (sm : StateMapVal)
    (input : Option (List String × List (List String))) (hostArg : Option String) :
    RunResult :=
  match input with
  | none => ⟨2, none, some "ERROR: CSV not found"⟩
  | some (headers, records) =>
    match read headers records with
    | .error m => ⟨2, none, some ("ERROR: " ++ m)⟩
    | .ok rows =>
      match build flags sm rows with
      | .error m => ⟨1, none, some ("FATAL: " ++ m)⟩
      | .ok inv =>
        if truthy hostArg then ⟨0, some (print_host inv (hostArg.getD "")), none⟩
        else ⟨0, some (.full inv), none⟩

/-! Total restatements of the grouping and building passes for a dict state
map (the only case in which Python's dict.get succeeds), used to reason about
the Except-valued pipeline, plus the per-row group-name lists. -/

/-- The state rule when the state map is a dict (never fails). -/
def applyStateT (flags : Flags) (m : List (String × String)) (gs : Groups) (row : Row) :
    Groups :=
  if flags.group_by_state && truthy (dget row "vm_state") then
    addHost gs ("state_" ++ normalize_state m ((dget row "vm_state").getD "")) (vmName row)
  else gs

/-- One row-loop iteration for a dict state map. -/
def processRowT (flags : Flags) (m : List (String × String)) (gs : Groups) (row : Row) :
    Groups :=
  applyFallback (applyStateT flags m (applyOwner flags (applyCustom flags gs row) row) row) row

/-- The trimmed non-empty custom tokens the custom rule adds the host to. -/
def customNames (flags : Flags) (row : Row) : List String :=
  if flags.group_by_custom && truthy (dget row "vm_groups") then
    ((pySplitComma ((dget row "vm_groups").getD "")).map pyStrip).filter (fun t => t ≠ "")
  else []

/-- The owner-group name the owner rule adds the host to, if any. -/
def ownerNames (flags : Flags) (row : Row) : List String :=
  if flags.group_by_owner && truthy (dget row "vm_owner") then
    ["owner_" ++ (dget row "vm_owner").getD ""]
  else []

/-- The state-group name the state rule adds the host to, if any. -/
def stateNames (flags : Flags) (m : List (String × String)) (row : Row) : List String :=
  if flags.group_by_state && truthy (dget row "vm_state") then
    ["state_" ++ normalize_state m ((dget row "vm_state").getD "")]
  else []

/-- All group names the three rules add the row's host to, in rule order. -/
def rowNames (flags : Flags) (m : List (String × String)) (row : Row) : List String :=
  customNames flags row ++ ownerNames flags row ++ stateNames flags m row

/-- Append the host to each named group in turn. -/
def addMany (gs : Groups) (names : List String) (h : String) : Groups :=
  names.foldl (fun acc n => addHost acc n h) gs

/-- The row loop of generate_groups for a dict state map. -/
def generate_groupsT (flags : Flags) (m : List (String × String)) (rows : List Row) :
    Groups :=
  rows.foldl (processRowT flags m) []

/-- The hostvar of one row for a dict state map. -/
def hostvarOfT (m : List (String × String)) (row : Row) : Row :=
  let hv := dictInsert row "ansible_host" ((dget row "vm_ip_addr").getD "")
  if containsKey row "vm_state" then
    dictInsert hv "vmware_state" (normalize_state m ((dget row "vm_state").getD ""))
  else hv

/-- One iteration of the hostvars/uuid_index loop for a dict state map. -/
def metaStep (m : List (String × String))
    (acc : (List (String × Row)) × (List (String × String))) (row : Row) :
    (List (String × Row)) × (List (String × String)) :=
  (dictInsert acc.1 (vmName row) (hostvarOfT m row),
   match uuidKeep row with
   | some u => dictInsert acc.2 u (vmName row)
   | none => acc.2)

/-- The hostvars/uuid_index loop for a dict state map. -/
def buildMetaT (m : List (String × String)) (rows : List Row) :
    (List (String × Row)) × (List (String × String)) :=
  rows.foldl (metaStep m) ([], [])

/-- The whole builder for a dict state map. -/
def buildT (flags : Flags) (m : List (String × String)) (rows : List Row) : Document :=
  let meta := buildMetaT m rows
  let gs := generate_groupsT flags m rows
  let names := sortStr (gs.map Prod.fst)
  dictInsert (groupLoop gs (dictInsert [] "_meta" (.meta meta.1)) names)
    "all" (.allEntry names meta.2)

/-- The host h sits in some group of gs. -/
def hasHost (gs : Groups) (h : String) : Prop := ∃ p ∈ gs, h ∈ p.2

/-- The host h sits in the group named g of gs. -/
def hasHostIn (gs : Groups) (g h : String) : Prop := ∃ p ∈ gs, p.1 = g ∧ h ∈ p.2

/-- Every group's host list is duplicate-free. -/
def allNodup (gs : Groups) : Prop := ∀ p ∈ gs, p.2.Nodup

/-- The Inventory-Assembler contract sentence of the spec for the UUID index,
with the non-emptiness condition the code actually enforces: the index entry
for u is the host name of the last row whose vm_uuid cell is present,
non-empty, not the case-insensitive text none, and equal to u. -/
def lastUuidHost (rows : List Row) (u : String) : Option String :=
  rows.foldl
    (fun acc row =>
      match dget row "vm_uuid" with
      | some v => if v ≠ "" ∧ pyLower v ≠ "none" ∧ v = u then some (vmName row) else acc
      | none => acc)
    none

/-! Concrete sample data used by witnesses and counterexamples. -/

def sampleHeaders : List String := ["vm_name", "vm_state", "vm_ip_addr"]

def sampleRecords : List (List String) := [["vm1", "on", "10.0.0.1"]]

def sampleRow : Row := [("vm_name", "vm1"), ("vm_state", "on"), ("vm_ip_addr", "10.0.0.1")]

def sampleRows : List Row := [sampleRow]

def sampleDoc : Document :=
  [("_meta", .meta [("vm1",
      [("vm_name", "vm1"), ("vm_state", "on"), ("vm_ip_addr", "10.0.0.1"),
       ("ansible_host", "10.0.0.1"), ("vmware_state", "poweredon")])]),
   ("state_poweredon", .groupHosts ["vm1"]),
   ("ungrouped", .groupHosts ["vm1"]),
   ("all", .allEntry ["state_poweredon", "ungrouped"] [])]

/-- A row whose custom-group column repeats a token. -/
def dupTokRows : List Row := [[("vm_name", "h1"), ("vm_groups", "a,a")]]

/-- A row with custom-group value a,b. -/
def abRows : List Row := [[("vm_name", "h1"), ("vm_groups", "a,b")]]

/-- A row whose vm_uuid cell is present but empty. -/
def emptyUuidRows : List Row := [[("vm_name", "vm1"), ("vm_uuid", "")]]

/-- Two rows sharing the same uuid. -/
def uuidRows : List Row :=
  [[("vm_name", "vm1"), ("vm_uuid", "X")], [("vm_name", "vm2"), ("vm_uuid", "X")]]

/-- The document built from uuidRows. -/
def uuidDoc : Document :=
  [("_meta", .meta
      [("vm1", [("vm_name", "vm1"), ("vm_uuid", "X"), ("ansible_host", "")]),
       ("vm2", [("vm_name", "vm2"), ("vm_uuid", "X"), ("ansible_host", "")])]),
   ("ungrouped", .groupHosts ["vm1", "vm2"]),
   ("all", .allEntry ["ungrouped"] [("X", "vm2")])]

/-- A row with an owner and no custom groups, for the fallback witness. -/
def ownerRow : Row := [("vm_name", "h1"), ("vm_owner", "alice")]

def metaRows : List Row :=
  [[("vm_name", "h1"), ("vm_state", "on"), ("vm_ip_addr", "10.0.0.1"),
    ("vm_groups", "_meta")]]

/-! Basic lemmas about the dict and list primitives. -/

theorem memB_iff {l : List String} {x : String} : memB l x = true ↔ x ∈ l := by
  simp [memB, List.any_eq_true]

theorem truthy_some_iff {s : String} : truthy (some s) = true ↔ s ≠ "" := by
  simp [truthy]

theorem truthy_isSome {o : Option String} (h : truthy o = true) : o.isSome := by
  cases o with
  | none => simp [truthy] at h
  | some s => rfl

theorem dget_dictInsert {β : Type} (d : List (String × β)) (k : String) (v : β)
    (q : String) : dget (dictInsert d k v) q = if k = q then some v else dget d q := by
  induction d with
  | nil => simp [dictInsert, dget]
  | cons a rest ih =>
    obtain ⟨a1, a2⟩ := a
    by_cases hak : a1 = k
    · subst hak
      simp only [dictInsert, if_pos rfl, dget]
      by_cases hq : a1 = q
      · subst hq; simp
      · simp [hq]
    · simp only [dictInsert, if_neg hak, dget]
      by_cases hq : a1 = q
      · subst hq
        simp [Ne.symm hak]
      · simp [hq, ih]

theorem keys_dictInsert_mem {β : Type} {d : List (String × β)} {k : String} (v : β)
    (h : k ∈ d.map Prod.fst) : (dictInsert d k v).map Prod.fst = d.map Prod.fst := by
  induction d with
  | nil => simp at h
  | cons a rest ih =>
    obtain ⟨a1, a2⟩ := a
    by_cases hak : a1 = k
    · subst hak; simp [dictInsert]
    · simp only [List.map_cons, List.mem_cons] at h
      rcases h with h | h

      · exact absurd h.symm hak
      · simp [dictInsert, hak, ih h]

theorem nodup_snoc {l : List String} {a : String} (hn : l.Nodup) (ha : a ∉ l) :
    (l ++ [a]).Nodup := by
  simp [List.nodup_append, hn, ha]

/-! Lemmas about addHost, the defaultdict(list) append. -/

theorem addHost_nil_eq (g h : String) : addHost [] g h = [(g, [h])] := rfl

theorem addHost_cons_eq (a1 : String) (a2 : List String) (rest : Groups) (g h : String) :
    addHost ((a1, a2) :: rest) g h =
      if a1 = g then (a1, a2 ++ [h]) :: rest else (a1, a2) :: addHost rest g h := rfl

theorem addHost_self {gs : Groups} {g h : String} : hasHostIn (addHost gs g h) g h := by
  induction gs with
  | nil => exact ⟨(g, [h]), by rw [addHost_nil_eq]; simp, rfl, by simp⟩
  | cons a rest ih =>
    obtain ⟨a1, a2⟩ := a
    by_cases hag : a1 = g
    · refine ⟨(a1, a2 ++ [h]), ?_, hag, by simp⟩
      rw [addHost_cons_eq, if_pos hag]
      simp
    · obtain ⟨p, hp, hp1, hp2⟩ := ih
      refine ⟨p, ?_, hp1, hp2⟩
      rw [addHost_cons_eq, if_neg hag]
      simp [hp]

theorem addHost_mono {gs : Groups} {p : String × List String} (hp : p ∈ gs)
    (g h : String) :
    ∃ q ∈ addHost gs g h, q.1 = p.1 ∧ ∀ x ∈ p.2, x ∈ q.2 := by
  induction gs with
  | nil => simp at hp
  | cons a rest ih =>
    obtain ⟨a1, a2⟩ := a
    by_cases hag : a1 = g
    · rw [addHost_cons_eq, if_pos hag]
      rcases List.mem_cons.mp hp with hpe | hpm
      · refine ⟨(a1, a2 ++ [h]), by simp, by rw [hpe], ?_⟩
        intro x hx
        rw [hpe] at hx
        exact List.mem_append.mpr (Or.inl hx)
      · exact ⟨p, by simp [hpm], rfl, fun x hx => hx⟩
    · rw [addHost_cons_eq, if_neg hag]
      rcases List.mem_cons.mp hp with hpe | hpm
      · exact ⟨p, by simp [hpe], rfl, fun x hx => hx⟩
      · obtain ⟨q, hq, hq1, hq2⟩ := ih hpm
        exact ⟨q, by simp [hq], hq1, hq2⟩

theorem mem_addHost_src {gs : Groups} {g h : String} {p : String × List String}
    (hp : p ∈ addHost gs g h) : ∀ x ∈ p.2, x = h ∨ ∃ q ∈ gs, x ∈ q.2 := by
  induction gs generalizing p with
  | nil =>
    rw [addHost_nil_eq] at hp
    have hp2 := List.mem_singleton.mp hp
    intro x hx
    rw [hp2] at hx
    simp only [List.mem_singleton] at hx
    exact Or.inl hx
  | cons a rest ih =>
    obtain ⟨a1, a2⟩ := a
    by_cases hag : a1 = g
    · rw [addHost_cons_eq, if_pos hag] at hp
      rcases List.mem_cons.mp hp with hpe | hpm
      · intro x hx
        have hx2 : x ∈ a2 ++ [h] := by rw [hpe] at hx; exact hx
        rcases List.mem_append.mp hx2 with hx3 | hx3
        · exact Or.inr ⟨(a1, a2), by simp, hx3⟩
        · exact Or.inl (List.mem_singleton.mp hx3)
      · intro x hx
        exact Or.inr ⟨p, by simp [hpm], hx⟩
    · rw [addHost_cons_eq, if_neg hag] at hp
      rcases List.mem_cons.mp hp with hpe | hpm
      · intro x hx
        exact Or.inr ⟨p, by simp [hpe], hx⟩
      · intro x hx
        rcases ih hpm x hx with hx3 | ⟨q, hq, hq2⟩
        · exact Or.inl hx3
        · exact Or.inr ⟨q, by simp [hq], hq2⟩

theorem addHost_hmem {gs : Groups} {g h : String} {p : String × List String}
    (hp : p ∈ addHost gs g h) (hh : h ∈ p.2) :
    p.1 = g ∨ ∃ q ∈ gs, q.1 = p.1 ∧ h ∈ q.2 := by
  induction gs generalizing p with
  | nil =>
    rw [addHost_nil_eq] at hp
    have hp2 := List.mem_singleton.mp hp
    exact Or.inl (by rw [hp2])
  | cons a rest ih =>
    obtain ⟨a1, a2⟩ := a
    by_cases hag : a1 = g
    · rw [addHost_cons_eq, if_pos hag] at hp
      rcases List.mem_cons.mp hp with hpe | hpm
      · exact Or.inl (by rw [hpe]; exact hag)
      · exact Or.inr ⟨p, by simp [hpm], rfl, hh⟩
    · rw [addHost_cons_eq, if_neg hag] at hp
      rcases List.mem_cons.mp hp with hpe | hpm
      · exact Or.inr ⟨p, by simp [hpe], rfl, hh⟩
      · rcases ih hpm hh with h1 | ⟨q, hq, hq1, hq2⟩
        · exact Or.inl h1
        · exact Or.inr ⟨q, by simp [hq], hq1, hq2⟩

theorem addHost_nodup {gs : Groups} {g h : String}
    (hn : allNodup gs) (hfresh : ∀ p ∈ gs, p.1 = g → h ∉ p.2) :
    allNodup (addHost gs g h) := by
  induction gs with
  | nil =>
    intro p hp
    rw [addHost_nil_eq] at hp
    have hp2 := List.mem_singleton.mp hp
    rw [hp2]
    simp
  | cons a rest ih =>
    obtain ⟨a1, a2⟩ := a
    intro p hp
    by_cases hag : a1 = g
    · rw [addHost_cons_eq, if_pos hag] at hp
      rcases List.mem_cons.mp hp with hpe | hpm
      · rw [hpe]
        have h1 : a2.Nodup := hn (a1, a2) (by simp)
        have h2 : h ∉ a2 := hfresh (a1, a2) (by simp) hag
        exact nodup_snoc h1 h2
      · exact hn p (by simp [hpm])
    · rw [addHost_cons_eq, if_neg hag] at hp
      rcases List.mem_cons.mp hp with hpe | hpm
      · rw [hpe]
        exact hn (a1, a2) (by simp)
      · exact ih (fun q hq => hn q (by simp [hq]))
          (fun q hq hq1 => hfresh q (by simp [hq]) hq1) p hpm

theorem applyState_obj (flags : Flags) (m : List (String × String)) (gs : Groups)
    (row : Row) : applyState flags (.obj m) gs row = .ok (applyStateT flags m gs row) := by
  unfold applyState applyStateT
  by_cases hc : (flags.group_by_state && truthy (dget row "vm_state")) = true
  · simp [hc, normalize_stateE, Except.map]
  · simp [hc]

theorem processRow_obj (flags : Flags) (m : List (String × String)) (gs : Groups)
    (row : Row) : processRow flags (.obj m) gs row = .ok (processRowT flags m gs row) := by
  unfold processRow processRowT
  rw [applyState_obj]
  rfl

theorem foldlM_processRow_obj (flags : Flags) (m : List (String × String))
    (rows : List Row) :
    ∀ gs : Groups, rows.foldlM (processRow flags (.obj m)) gs =
      .ok (rows.foldl (processRowT flags m) gs) := by
  induction rows with
  | nil => intro gs; rfl
  | cons row rest ih =>
    intro gs
    rw [List.foldlM_cons, processRow_obj]
    show rest.foldlM (processRow flags (.obj m)) (processRowT flags m gs row) = _
    rw [ih, List.foldl_cons]

theorem generate_groups_obj (flags : Flags) (m : List (String × String))
    (rows : List Row) :
    generate_groups flags (.obj m) rows = .ok (generate_groupsT flags m rows) :=
  foldlM_processRow_obj flags m rows []

theorem hostvarOf_obj (m : List (String × String)) (row : Row) :
    hostvarOf (.obj m) row = .ok (hostvarOfT m row) := by
  unfold hostvarOf hostvarOfT
  by_cases hc : containsKey row "vm_state" = true
  · simp [hc, normalize_stateE, Except.map]
  · simp [hc]

theorem foldlM_of_ok {σ α : Type} (f : σ → α → Except String σ) (g : σ → α → σ)
    (hfg : ∀ s a, f s a = .ok (g s a)) :
    ∀ (l : List α) (s : σ), l.foldlM f s = .ok (l.foldl g s) := by
  intro l
  induction l with
  | nil => intro s; rfl
  | cons a rest ih =>
    intro s
    rw [List.foldlM_cons, hfg]
    show rest.foldlM f (g s a) = _
    rw [ih, List.foldl_cons]

theorem buildMeta_obj (m : List (String × String)) (rows : List Row) :
    buildMeta (.obj m) rows = .ok (buildMetaT m rows) := by
  unfold buildMeta buildMetaT
  refine foldlM_of_ok _ _ ?_ rows ([], [])
  intro s row
  show (hostvarOf (.obj m) row >>= fun hv => _) = _
  rw [hostvarOf_obj]
  rfl

theorem build_obj (flags : Flags) (m : List (String × String)) (rows : List Row) :
    build flags (.obj m) rows = .ok (buildT flags m rows) := by
  unfold build buildT
  rw [buildMeta_obj]
  show (generate_groups flags (.obj m) rows).bind _ = _
  rw [generate_groups_obj]
  rfl

/-! The per-row rules as addMany over the per-row group-name lists. -/

theorem addMany_nil (gs : Groups) (h : String) : addMany gs [] h = gs := rfl

theorem addMany_cons (gs : Groups) (n : String) (ns : List String) (h : String) :
    addMany gs (n :: ns) h = addMany (addHost gs n h) ns h := rfl

theorem addMany_append (gs : Groups) (as bs : List String) (h : String) :
    addMany gs (as ++ bs) h = addMany (addMany gs as h) bs h := by
  simp [addMany, List.foldl_append]

theorem addTokens_eq (h : String) :
    ∀ (toks : List String) (gs : Groups),
      toks.foldl
        (fun acc tok =>
          let g := pyStrip tok
          if g ≠ "" then addHost acc g h else acc)
        gs =
      addMany gs ((toks.map pyStrip).filter (fun t => t ≠ "")) h := by
  intro toks
  induction toks with
  | nil => intro gs; rfl
  | cons t ts ih =>
    intro gs
    rw [List.foldl_cons]
    by_cases he : pyStrip t = ""
    · have hstep :
          (let g := pyStrip t
           if g ≠ "" then addHost gs g h else gs) = gs := by
        simp [he]
      rw [hstep]
      have hfil : ((t :: ts).map pyStrip).filter (fun t => t ≠ "") =
          (ts.map pyStrip).filter (fun t => t ≠ "") := by
        simp [he]
      rw [hfil]
      exact ih gs
    · have hstep :
          (let g := pyStrip t
           if g ≠ "" then addHost gs g h else gs) = addHost gs (pyStrip t) h := by
        simp [he]
      rw [hstep]
      have hfil : ((t :: ts).map pyStrip).filter (fun t => t ≠ "") =
          pyStrip t :: ((ts.map pyStrip).filter (fun t => t ≠ "")) := by
        simp [he]
      rw [hfil, addMany_cons]
      exact ih (addHost gs (pyStrip t) h)

theorem applyCustom_eq (flags : Flags) (gs : Groups) (row : Row) :
    applyCustom flags gs row = addMany gs (customNames flags row) (vmName row) := by
  unfold applyCustom customNames
  by_cases hc : (flags.group_by_custom && truthy (dget row "vm_groups")) = true
  · simp only [hc, if_true, ite_true]
    exact addTokens_eq (vmName row) _ gs
  · simp [hc, addMany]

theorem applyOwner_eq (flags : Flags) (gs : Groups) (row : Row) :
    applyOwner flags gs row = addMany gs (ownerNames flags row) (vmName row) := by
  unfold applyOwner ownerNames
  by_cases hc : (flags.group_by_owner && truthy (dget row "vm_owner")) = true
  · simp [hc, addMany]
  · simp [hc, addMany]

theorem applyStateT_eq (flags : Flags) (m : List (String × String)) (gs : Groups)
    (row : Row) :
    applyStateT flags m gs row = addMany gs (stateNames flags m row) (vmName row) := by
  unfold applyStateT stateNames
  by_cases hc : (flags.group_by_state && truthy (dget row "vm_state")) = true
  · simp [hc, addMany]
  · simp [hc, addMany]

theorem processRowT_eq (flags : Flags) (m : List (String × String)) (gs : Groups)
    (row : Row) :
    processRowT flags m gs row =
      applyFallback (addMany gs (rowNames flags m row) (vmName row)) row := by
  unfold processRowT rowNames
  rw [applyCustom_eq, applyOwner_eq, applyStateT_eq, addMany_append, addMany_append]

/-! Membership and duplicate-freedom lemmas for addMany. -/

theorem addHost_monoIn {gs : Groups} {g' x : String} (hin : hasHostIn gs g' x)
    (g h : String) : hasHostIn (addHost gs g h) g' x := by
  obtain ⟨p, hp, hp1, hp2⟩ := hin
  obtain ⟨q, hq, hq1, hq2⟩ := addHost_mono hp g h
  exact ⟨q, hq, by rw [hq1, hp1], hq2 x hp2⟩

theorem addMany_monoIn {gs : Groups} {g' x : String} (hin : hasHostIn gs g' x)
    (names : List String) (h : String) : hasHostIn (addMany gs names h) g' x := by
  induction names generalizing gs with
  | nil => exact hin
  | cons n ns ih =>
    rw [addMany_cons]
    exact ih (addHost_monoIn hin n h)

theorem addMany_memIn {names : List String} {n : String} (hn : n ∈ names)
    (gs : Groups) (h : String) : hasHostIn (addMany gs names h) n h := by
  induction names generalizing gs with
  | nil => simp at hn
  | cons a ns ih =>
    rw [addMany_cons]
    rcases List.mem_cons.mp hn with he | hm
    · rw [he]
      exact addMany_monoIn addHost_self ns h
    · exact ih hm _

theorem mem_addMany_src {names : List String} :
    ∀ {gs : Groups} {h : String} {p : String × List String}, p ∈ addMany gs names h →
      ∀ x ∈ p.2, x = h ∨ ∃ q ∈ gs, x ∈ q.2 := by
  induction names with
  | nil => intro gs h p hp x hx; exact Or.inr ⟨p, hp, hx⟩
  | cons n ns ih =>
    intro gs h p hp x hx
    rw [addMany_cons] at hp
    rcases ih hp x hx with he | ⟨q, hq, hq2⟩
    · exact Or.inl he
    · rcases mem_addHost_src hq x hq2 with he | ⟨r, hr, hr2⟩
      · exact Or.inl he
      · exact Or.inr ⟨r, hr, hr2⟩

theorem addMany_nodup {h : String} :
    ∀ (names : List String) (gs : Groups) (done : List String),
      allNodup gs → (∀ p ∈ gs, h ∈ p.2 → p.1 ∈ done) → names.Nodup →
      (∀ n ∈ names, n ∉ done) →
      allNodup (addMany gs names h) ∧
        (∀ p ∈ addMany gs names h, h ∈ p.2 → p.1 ∈ names ++ done) := by
  intro names
  induction names with
  | nil =>
    intro gs done hn hloc _ _
    exact ⟨hn, fun p hp hh => by simpa using hloc p hp hh⟩
  | cons n ns ih =>
    intro gs done hn hloc hnd hnotin
    have hnotin_n : n ∉ done := hnotin n (by simp)
    have hfresh : ∀ p ∈ gs, p.1 = n → h ∉ p.2 := by
      intro p hp hp1 hh
      exact hnotin_n (hp1 ▸ hloc p hp hh)
    have hn' : allNodup (addHost gs n h) := addHost_nodup hn hfresh
    have hloc' : ∀ p ∈ addHost gs n h, h ∈ p.2 → p.1 ∈ n :: done := by
      intro p hp hh
      rcases addHost_hmem hp hh with h1 | ⟨q, hq, hq1, hq2⟩
      · exact List.mem_cons.mpr (Or.inl h1)
      · exact List.mem_cons.mpr (Or.inr (hq1 ▸ hloc q hq hq2))
    have hnd' : ns.Nodup := (List.nodup_cons.mp hnd).2
    have hnotin' : ∀ x ∈ ns, x ∉ n :: done := by
      intro x hx
      simp only [List.mem_cons]
      push_neg
      exact ⟨fun he => (List.nodup_cons.mp hnd).1 (he ▸ hx), hnotin x (by simp [hx])⟩
    obtain ⟨r1, r2⟩ := ih (addHost gs n h) (n :: done) hn' hloc' hnd' hnotin'
    rw [addMany_cons]
    refine ⟨r1, ?_⟩
    intro p hp hh
    have := r2 p hp hh
    simp only [List.mem_append, List.mem_cons] at this ⊢
    tauto

/-! The ungrouped fallback and the per-row step. -/

theorem inVmGroup_iff {gs : Groups} {h : String} :
    inVmGroup gs h = true ↔ ∃ p ∈ gs, strStarts p.1 "vm_" = true ∧ h ∈ p.2 := by
  simp [inVmGroup, List.any_eq_true, Bool.and_eq_true, memB_iff]

theorem applyFallback_self (gs : Groups) (row : Row) :
    hasHost (applyFallback gs row) (vmName row) := by
  unfold applyFallback
  by_cases hvm : inVmGroup gs (vmName row) = true
  · rw [if_pos hvm]
    obtain ⟨p, hp, _, hp2⟩ := inVmGroup_iff.mp hvm
    exact ⟨p, hp, hp2⟩
  · rw [if_neg hvm]
    obtain ⟨p, hp, _, hp2⟩ := @addHost_self gs "ungrouped" (vmName row)
    exact ⟨p, hp, hp2⟩

theorem applyFallback_monoIn {gs : Groups} {g x : String} (hin : hasHostIn gs g x)
    (row : Row) : hasHostIn (applyFallback gs row) g x := by
  unfold applyFallback
  by_cases hvm : inVmGroup gs (vmName row) = true
  · rw [if_pos hvm]; exact hin
  · rw [if_neg hvm]; exact addHost_monoIn hin _ _

theorem hasHost_of_hasHostIn {gs : Groups} {g x : String} (h : hasHostIn gs g x) :
    hasHost gs x := by
  obtain ⟨p, hp, _, hp2⟩ := h
  exact ⟨p, hp, hp2⟩

theorem hasHostIn_of_hasHost {gs : Groups} {x : String} (h : hasHost gs x) :
    ∃ g, hasHostIn gs g x := by
  obtain ⟨p, hp, hp2⟩ := h
  exact ⟨p.1, p, hp, rfl, hp2⟩

theorem processRowT_monoIn {flags : Flags} {m : List (String × String)} {gs : Groups}
    {g x : String} (hin : hasHostIn gs g x) (row : Row) :
    hasHostIn (processRowT flags m gs row) g x := by
  rw [processRowT_eq]
  exact applyFallback_monoIn (addMany_monoIn hin _ _) row

theorem processRowT_mono {flags : Flags} {m : List (String × String)} {gs : Groups}
    {x : String} (hin : hasHost gs x) (row : Row) :
    hasHost (processRowT flags m gs row) x := by
  obtain ⟨g, hg⟩ := hasHostIn_of_hasHost hin
  exact hasHost_of_hasHostIn (processRowT_monoIn hg row)

theorem processRowT_self (flags : Flags) (m : List (String × String)) (gs : Groups)
    (row : Row) : hasHost (processRowT flags m gs row) (vmName row) := by
  unfold processRowT
  exact applyFallback_self _ row

theorem processRowT_hosts {flags : Flags} {m : List (String × String)} {gs : Groups}
    {row : Row} : ∀ p ∈ processRowT flags m gs row, ∀ x ∈ p.2,
      x = vmName row ∨ ∃ q ∈ gs, x ∈ q.2 := by
  rw [processRowT_eq]
  generalize hnames : rowNames flags m row = names
  unfold applyFallback
  by_cases hvm : inVmGroup (addMany gs names (vmName row)) (vmName row) = true
  · rw [if_pos hvm]
    exact fun p hp x hx => mem_addMany_src hp x hx
  · rw [if_neg hvm]
    intro p hp x hx
    rcases mem_addHost_src hp x hx with he | ⟨q, hq, hq2⟩
    · exact Or.inl he
    · exact mem_addMany_src hq x hq2

theorem processRowT_nodup {flags : Flags} {m : List (String × String)} {gs : Groups}
    {row : Row} (hn : allNodup gs) (hfresh : ∀ p ∈ gs, vmName row ∉ p.2)
    (hrn : (rowNames flags m row ++ ["ungrouped"]).Nodup) :
    allNodup (processRowT flags m gs row) := by
  rw [processRowT_eq]
  have h1 : (rowNames flags m row).Nodup := List.Nodup.of_append_left hrn
  have hung : "ungrouped" ∉ rowNames flags m row := by
    intro hmem
    exact (List.disjoint_of_nodup_append hrn) hmem (by simp)
  obtain ⟨hAll, hLoc⟩ := addMany_nodup (rowNames flags m row) gs []
    hn (fun p hp hh => absurd hh (hfresh p hp)) h1 (by simp)
  unfold applyFallback
  by_cases hvm :
      inVmGroup (addMany gs (rowNames flags m row) (vmName row)) (vmName row) = true
  · rw [if_pos hvm]; exact hAll
  · rw [if_neg hvm]
    refine addHost_nodup hAll ?_
    intro p hp hp1 hh
    have := hLoc p hp hh
    rw [hp1] at this
    simp only [List.append_nil] at this
    exact hung this

/-! Folding the per-row step over the whole row list. -/

theorem foldT_monoIn {flags : Flags} {m : List (String × String)} {g x : String} :
    ∀ (rows : List Row) (gs : Groups), hasHostIn gs g x →
      hasHostIn (rows.foldl (processRowT flags m) gs) g x := by
  intro rows
  induction rows with
  | nil => intro gs hin; exact hin
  | cons row rest ih =>
    intro gs hin
    rw [List.foldl_cons]
    exact ih _ (processRowT_monoIn hin row)

theorem foldT_mono {flags : Flags} {m : List (String × String)} {x : String} :
    ∀ (rows : List Row) (gs : Groups), hasHost gs x →
      hasHost (rows.foldl (processRowT flags m) gs) x := by
  intro rows
  induction rows with
  | nil => intro gs hin; exact hin
  | cons row rest ih =>
    intro gs hin
    rw [List.foldl_cons]
    exact ih _ (processRowT_mono hin row)

theorem foldT_self {flags : Flags} {m : List (String × String)} :
    ∀ (rows : List Row) (gs : Groups) (row : Row), row ∈ rows →
      hasHost (rows.foldl (processRowT flags m) gs) (vmName row) := by
  intro rows
  induction rows with
  | nil => intro gs row hmem; simp at hmem
  | cons r rest ih =>
    intro gs row hmem
    rw [List.foldl_cons]
    rcases List.mem_cons.mp hmem with he | hm
    · rw [he]
      exact foldT_mono rest _ (processRowT_self flags m gs r)
    · exact ih _ row hm

theorem foldT_memIn_custom {flags : Flags} {m : List (String × String)} {t : String} :
    ∀ (rows : List Row) (gs : Groups) (row : Row), row ∈ rows →
      t ∈ customNames flags row →
      hasHostIn (rows.foldl (processRowT flags m) gs) t (vmName row) := by
  intro rows
  induction rows with
  | nil => intro gs row hmem; simp at hmem
  | cons r rest ih =>
    intro gs row hmem ht
    rw [List.foldl_cons]
    rcases List.mem_cons.mp hmem with he | hm
    · have htn : t ∈ rowNames flags m r := by
        rw [he] at ht
        exact List.mem_append.mpr (Or.inl (List.mem_append.mpr (Or.inl ht)))
      have hstep : hasHostIn (processRowT flags m gs r) t (vmName row) := by
        rw [he, processRowT_eq]
        exact applyFallback_monoIn (addMany_memIn htn gs (vmName r)) r
      exact foldT_monoIn rest _ hstep
    · exact ih _ row hm ht

theorem foldT_nodup {flags : Flags} {m : List (String × String)} :
    ∀ (rows : List Row) (gs : Groups) (seen : List String),
      allNodup gs → (∀ p ∈ gs, ∀ x ∈ p.2, x ∈ seen) →
      (∀ n ∈ rows.map vmName, n ∉ seen) → (rows.map vmName).Nodup →
      (∀ row ∈ rows, (rowNames flags m row ++ ["ungrouped"]).Nodup) →
      allNodup (rows.foldl (processRowT flags m) gs) := by
  intro rows
  induction rows with
  | nil => intro gs seen hn _ _ _ _; exact hn
  | cons row rest ih =>
    intro gs seen hn hseen hfresh hnd hrow
    rw [List.map_cons] at hnd
    have hnd1 := (List.nodup_cons.mp hnd).1
    have hnd2 := (List.nodup_cons.mp hnd).2
    rw [List.foldl_cons]
    have hfr : ∀ p ∈ gs, vmName row ∉ p.2 := by
      intro p hp hmem
      exact hfresh (vmName row) (by simp) (hseen p hp _ hmem)
    have hstep : allNodup (processRowT flags m gs row) :=
      processRowT_nodup hn hfr (hrow row (by simp))
    have hseen' : ∀ p ∈ processRowT flags m gs row, ∀ x ∈ p.2, x ∈ vmName row :: seen := by
      intro p hp x hx
      rcases processRowT_hosts p hp x hx with he | ⟨q, hq, hq2⟩
      · exact List.mem_cons.mpr (Or.inl he)
      · exact List.mem_cons.mpr (Or.inr (hseen q hq x hq2))
    have hfresh' : ∀ n ∈ rest.map vmName, n ∉ vmName row :: seen := by
      intro n hnm
      simp only [List.mem_cons]
      push_neg
      constructor
      · intro he
        exact hnd1 (he ▸ hnm)
      · exact hfresh n (by simp [hnm])
    exact ih _ (vmName row :: seen) hstep hseen' hfresh' hnd2
      (fun r hr => hrow r (by simp [hr]))

/-! Lemmas about the hostvars/uuid_index loop. -/

theorem uuid_step_eq (acc2 : List (String × String)) (row : Row) (u : String) :
    dget (match uuidKeep row with
          | some v => dictInsert acc2 v (vmName row)
          | none => acc2) u =
      (match dget row "vm_uuid" with
       | some v =>
         if v ≠ "" ∧ pyLower v ≠ "none" ∧ v = u then some (vmName row) else dget acc2 u
       | none => dget acc2 u) := by
  cases hv : dget row "vm_uuid" with
  | none =>
    have h0 : uuidKeep row = none := by
      unfold uuidKeep
      rw [hv]
      rfl
    rw [h0]
  | some v =>
    have h0 : uuidKeep row =
        (if pyLower v = "none" then none else if v = "" then none else some v) := by
      unfold uuidKeep
      rw [hv]
      rfl
    show dget (match uuidKeep row with
          | some w => dictInsert acc2 w (vmName row)
          | none => acc2) u =
      if v ≠ "" ∧ pyLower v ≠ "none" ∧ v = u then some (vmName row) else dget acc2 u
    rw [h0]
    by_cases h1 : pyLower v = "none"
    · rw [if_pos h1,
        if_neg (show ¬ (v ≠ "" ∧ pyLower v ≠ "none" ∧ v = u) from fun hc => hc.2.1 h1)]
    · by_cases h2 : v = ""
      · rw [if_neg h1, if_pos h2,
          if_neg (show ¬ (v ≠ "" ∧ pyLower v ≠ "none" ∧ v = u) from fun hc => hc.1 h2)]
      · rw [if_neg h1, if_neg h2]
        show dget (dictInsert acc2 v (vmName row)) u = _
        rw [dget_dictInsert]
        by_cases h3 : v = u
        · rw [if_pos h3, if_pos ⟨h2, h1, h3⟩]
        · rw [if_neg h3,
            if_neg (show ¬ (v ≠ "" ∧ pyLower v ≠ "none" ∧ v = u) from
              fun hc => h3 hc.2.2)]

theorem metaFold_uuid (m : List (String × String)) :
    ∀ (rows : List Row) (acc : (List (String × Row)) × (List (String × String)))
      (u : String),
      dget ((rows.foldl (metaStep m) acc).2) u =
        rows.foldl
          (fun o row =>
            match dget row "vm_uuid" with
            | some v =>
              if v ≠ "" ∧ pyLower v ≠ "none" ∧ v = u then some (vmName row) else o
            | none => o)
          (dget acc.2 u) := by
  intro rows
  induction rows with
  | nil => intro acc u; rfl
  | cons row rest ih =>
    intro acc u
    rw [List.foldl_cons, List.foldl_cons, ih]
    have hstep : dget ((metaStep m acc row).2) u =
        (match dget row "vm_uuid" with
         | some v =>
           if v ≠ "" ∧ pyLower v ≠ "none" ∧ v = u then some (vmName row)
           else dget acc.2 u
         | none => dget acc.2 u) := uuid_step_eq acc.2 row u
    rw [hstep]

theorem buildMetaT_uuid (m : List (String × String)) (rows : List Row) (u : String) :
    dget ((buildMetaT m rows).2) u = lastUuidHost rows u := by
  unfold buildMetaT lastUuidHost
  rw [metaFold_uuid m rows ([], []) u]
  rfl

/-! Transport from the raw group map to the assembled inventory document. -/

theorem buildT_eq (flags : Flags) (m : List (String × String)) (rows : List Row) :
    buildT flags m rows =
      dictInsert
        (groupLoop (generate_groupsT flags m rows)
          (dictInsert [] "_meta" (.meta (buildMetaT m rows).1))
          (sortStr ((generate_groupsT flags m rows).map Prod.fst)))
        "all"
        (.allEntry (sortStr ((generate_groupsT flags m rows).map Prod.fst))
          (buildMetaT m rows).2) := rfl

theorem docUuidIndex_buildT (flags : Flags) (m : List (String × String))
    (rows : List Row) : docUuidIndex (buildT flags m rows) = (buildMetaT m rows).2 := by
  unfold docUuidIndex
  rw [buildT_eq, dget_dictInsert, if_pos rfl]

theorem run_read_error {flags : Flags} {sm : StateMapVal} {headers : List String}
    {records : List (List String)} {e : String} {hostArg : Option String}
    (hread : read headers records = Except.error e) :
    run flags sm (some (headers, records)) hostArg = ⟨2, none, some ("ERROR: " ++ e)⟩ := by
  unfold run
  show (match read headers records with
        | Except.error m => (⟨2, none, some ("ERROR: " ++ m)⟩ : RunResult)
        | Except.ok rows =>
          match build flags sm rows with
          | Except.error m => ⟨1, none, some ("FATAL: " ++ m)⟩
          | Except.ok inv =>
            if truthy hostArg then ⟨0, some (print_host inv (hostArg.getD "")), none⟩
            else ⟨0, some (.full inv), none⟩) = _
  rw [hread]

theorem run_ok_build_error {flags : Flags} {sm : StateMapVal} {headers : List String}
    {records : List (List String)} {rows : List Row} {e : String}
    {hostArg : Option String}
    (hread : read headers records = Except.ok rows)
    (hbuild : build flags sm rows = Except.error e) :
    run flags sm (some (headers, records)) hostArg = ⟨1, none, some ("FATAL: " ++ e)⟩ := by
  unfold run
  show (match read headers records with
        | Except.error m => (⟨2, none, some ("ERROR: " ++ m)⟩ : RunResult)
        | Except.ok rows =>
          match build flags sm rows with
          | Except.error m => ⟨1, none, some ("FATAL: " ++ m)⟩
          | Except.ok inv =>
            if truthy hostArg then ⟨0, some (print_host inv (hostArg.getD "")), none⟩
            else ⟨0, some (.full inv), none⟩) = _
  rw [hread]
  show (match build flags sm rows with
        | .error m => (⟨1, none, some ("FATAL: " ++ m)⟩ : RunResult)
        | .ok inv =>
          if truthy hostArg then ⟨0, some (print_host inv (hostArg.getD "")), none⟩
          else ⟨0, some (.full inv), none⟩) = _
  rw [hbuild]

theorem run_ok_build_ok {flags : Flags} {sm : StateMapVal} {headers : List String}
    {records : List (List String)} {rows : List Row} {inv : Document}
    {hostArg : Option String}
    (hread : read headers records = Except.ok rows)
    (hbuild : build flags sm rows = Except.ok inv) :
    run flags sm (some (headers, records)) hostArg =
      (if truthy hostArg then ⟨0, some (print_host inv (hostArg.getD "")), none⟩
       else ⟨0, some (.full inv), none⟩) := by
  unfold run
  show (match read headers records with
        | Except.error m => (⟨2, none, some ("ERROR: " ++ m)⟩ : RunResult)
        | Except.ok rows =>
          match build flags sm rows with
          | Except.error m => ⟨1, none, some ("FATAL: " ++ m)⟩
          | Except.ok inv =>
            if truthy hostArg then ⟨0, some (print_host inv (hostArg.getD "")), none⟩
            else ⟨0, some (.full inv), none⟩) = _
  rw [hread]
  show (match build flags sm rows with
        | .error m => (⟨1, none, some ("FATAL: " ++ m)⟩ : RunResult)
        | .ok inv =>
          if truthy hostArg then ⟨0, some (print_host inv (hostArg.getD "")), none⟩
          else ⟨0, some (.full inv), none⟩) = _
  rw [hbuild]

/-- C4: state normalization under the built-in table trims and lowercases the
raw value before lookup, so Powered-On, poweredon and on all normalize to
poweredon, and any raw value absent from the table (such as weird) also
normalizes to poweredon. -/
theorem c4_theorem :
    (∀ s : String, dget default_state_map (pyLower (pyStrip s)) = none →
      normalize_state default_state_map s = "poweredon") ∧
    normalize_state default_state_map "Powered-On" = "poweredon" ∧
    normalize_state default_state_map "poweredon" = "poweredon" ∧
    normalize_state default_state_map "on" = "poweredon" ∧
    normalize_state default_state_map "weird" = "poweredon" := by
  refine ⟨?_, rfl, rfl, rfl, rfl⟩
  intro s h
  unfold normalize_state
  rw [h]
  rfl

theorem c4_witness :
    dget default_state_map (pyLower (pyStrip "weird")) = none ∧
    normalize_state default_state_map "weird" = "poweredon" :=
  ⟨rfl, c4_theorem.1 "weird" rfl⟩

/-- C1: after the custom-group, owner and state rules have run for a row, if
the host does not belong to any group whose name starts with the literal
prefix vm_, the row loop also appends the host to the group ungrouped, in
addition to every membership already recorded. -/
theorem c1_theorem (flags : Flags) (sm : StateMapVal) (gs : Groups) (row : Row)
    (g3 : Groups)
    (hrules : applyState flags sm (applyOwner flags (applyCustom flags gs row) row) row
        = Except.ok g3)
    (hvm : inVmGroup g3 (vmName row) = false) :
    processRow flags sm gs row = Except.ok (addHost g3 "ungrouped" (vmName row)) ∧
    hasHostIn (addHost g3 "ungrouped" (vmName row)) "ungrouped" (vmName row) ∧
    (∀ g x, hasHostIn g3 g x →
      hasHostIn (addHost g3 "ungrouped" (vmName row)) g x) := by
  refine ⟨?_, addHost_self, fun g x hin => addHost_monoIn hin _ _⟩
  unfold processRow
  rw [hrules]
  show Except.ok (applyFallback g3 row) = _
  unfold applyFallback
  rw [if_neg (by simp [hvm])]

theorem c1_witness :
    processRow default_flags (.obj default_state_map) [] ownerRow =
      Except.ok [("owner_alice", ["h1"]), ("ungrouped", ["h1"])] ∧
    hasHostIn [("owner_alice", ["h1"]), ("ungrouped", ["h1"])] "ungrouped" "h1" := by
  have h := c1_theorem default_flags (.obj default_state_map) [] ownerRow
    [("owner_alice", ["h1"])] rfl rfl
  exact ⟨h.1, h.2.1⟩

/-- C9: invoking run with an empty --host argument is falsy in Python, so the
single-host branch is not taken: the result is identical to a plain --list
run, and on a successful pipeline the full inventory is printed. -/
theorem c9_theorem :
    (∀ (flags : Flags) (sm : StateMapVal)
        (input : Option (List String × List (List String))),
      run flags sm input (some "") = run flags sm input none) ∧
    (∀ (flags : Flags) (sm : StateMapVal) (headers : List String)
        (records : List (List String)) (rows : List Row) (inv : Document),
      read headers records = Except.ok rows → build flags sm rows = Except.ok inv →
      run flags sm (some (headers, records)) (some "") =
        ⟨0, some (.full inv), none⟩) := by
  constructor
  · intro flags sm input
    cases input with
    | none => rfl
    | some hr =>
      obtain ⟨headers, records⟩ := hr
      cases hread : read headers records with
      | error e => rw [run_read_error hread, run_read_error hread]
      | ok rows =>
        cases hbuild : build flags sm rows with
        | error e => rw [run_ok_build_error hread hbuild, run_ok_build_error hread hbuild]
        | ok inv =>
          rw [run_ok_build_ok hread hbuild, run_ok_build_ok hread hbuild]
          rfl
  · intro flags sm headers records rows inv hread hbuild
    rw [run_ok_build_ok hread hbuild]
    rfl

theorem c9_witness :
    run default_flags (.obj default_state_map) (some (sampleHeaders, sampleRecords))
      (some "") = ⟨0, some (.full sampleDoc), none⟩ :=
  c9_theorem.2 default_flags (.obj default_state_map) sampleHeaders sampleRecords
    sampleRows sampleDoc rfl rfl

/-- C8: with --host set to a non-empty name, run serializes exactly that
host's entry of the emitted document's _meta.hostvars mapping, and when the
name is not a key of that mapping it prints an empty object, exiting 0 in
both cases; in particular, on a document whose _meta entry was overwritten by
a group named _meta, every host prints as the empty object. -/
theorem c8_theorem :
    (∀ (flags : Flags) (m : List (String × String)) (headers : List String)
        (records : List (List String)) (rows : List Row) (inv : Document)
        (h : String),
      read headers records = Except.ok rows →
      build flags (.obj m) rows = Except.ok inv →
      h ≠ "" →
      run flags (.obj m) (some (headers, records)) (some h) =
        ⟨0, some (.hostObj ((dget (docHostvars inv) h).getD [])), none⟩ ∧
      (dget (docHostvars inv) h = none →
        run flags (.obj m) (some (headers, records)) (some h) =
          ⟨0, some (.hostObj []), none⟩)) ∧
    Except.map (fun inv => print_host inv "h1")
      (build default_flags (.obj default_state_map) metaRows) =
      Except.ok (.hostObj []) := by
  constructor
  · intro flags m headers records rows inv h hread hbuild hne
    have hmain : run flags (.obj m) (some (headers, records)) (some h) =
        ⟨0, some (.hostObj ((dget (docHostvars inv) h).getD [])), none⟩ := by
      rw [run_ok_build_ok hread hbuild]
      rw [if_pos (show truthy (some h) = true by simp [truthy, hne])]
      rfl
    refine ⟨hmain, fun hnone => ?_⟩
    rw [hmain, hnone]
    rfl
  · rfl

theorem c8_witness :
    run default_flags (.obj default_state_map) (some (sampleHeaders, sampleRecords))
      (some "ghost") = ⟨0, some (.hostObj []), none⟩ :=
  (c8_theorem.1 default_flags default_state_map sampleHeaders sampleRecords
    sampleRows sampleDoc "ghost" rfl rfl (by decide)).1

/-- C7 counterexample: on a header-less CSV the program exits 2 with the fixed
message Empty CSV or missing header, which does not name the missing required
columns sorted and comma-joined as the claim states. -/
theorem c7_counterexample :
    run default_flags (.obj default_state_map) (some ([], [])) none =
      ⟨2, none, some "ERROR: Empty CSV or missing header"⟩ ∧
    sortStr required_cols = ["vm_ip_addr", "vm_name", "vm_state"] ∧
    "ERROR: Empty CSV or missing header" ≠
      "ERROR: Missing required columns: " ++
        joinComma ["vm_ip_addr", "vm_name", "vm_state"] := by
  refine ⟨rfl, rfl, ?_⟩
  decide

theorem strAppend_assoc (a b c : String) : a ++ b ++ c = a ++ (b ++ c) := by
  apply String.ext
  simp [String.data_append, List.append_assoc]

theorem read_missing_eq (headers : List String) (records : List (List String))
    (hne : headers ≠ [])
    (hmiss : sortStr (required_cols.filter
      (fun c => !(memB (headers.map pyStrip) c))) ≠ []) :
    read headers records = Except.error ("Missing required columns: " ++
      joinComma (sortStr (required_cols.filter
        (fun c => !(memB (headers.map pyStrip) c))))) := by
  unfold read
  have h1 : (headers.map pyStrip).isEmpty = false := by
    cases headers with
    | nil => exact absurd rfl hne
    | cons a t => rfl
  have h2 : (sortStr (required_cols.filter
      (fun c => !(memB (headers.map pyStrip) c)))).isEmpty = false := by
    cases hE : sortStr (required_cols.filter
        (fun c => !(memB (headers.map pyStrip) c))) with
    | nil => exact absurd hE hmiss
    | cons a t => rfl
  simp only [h1, h2, Bool.false_eq_true, if_false]

/-- C7 (amended): when the header is present but some required column is
missing, the program exits 2 with a message naming the missing columns sorted
and comma-joined and writes nothing to stdout; when the CSV is empty or
header-less it exits 2 with the fixed message Empty CSV or missing header,
again writing nothing to stdout. -/
theorem c7_theorem :
    (∀ (flags : Flags) (sm : StateMapVal) (headers : List String)
        (records : List (List String)) (hostArg : Option String),
      headers ≠ [] →
      sortStr (required_cols.filter (fun c => !(memB (headers.map pyStrip) c))) ≠ [] →
      run flags sm (some (headers, records)) hostArg =
        ⟨2, none, some ("ERROR: Missing required columns: " ++
          joinComma (sortStr (required_cols.filter
            (fun c => !(memB (headers.map pyStrip) c)))))⟩) ∧
    (∀ (flags : Flags) (sm : StateMapVal) (records : List (List String))
        (hostArg : Option String),
      run flags sm (some ([], records)) hostArg =
        ⟨2, none, some "ERROR: Empty CSV or missing header"⟩) := by
  constructor
  · intro flags sm headers records hostArg hne hmiss
    rw [run_read_error (read_missing_eq headers records hne hmiss), ← strAppend_assoc]
    rw [show ("ERROR: " ++ "Missing required columns: " : String) =
      "ERROR: Missing required columns: " from rfl]
  · intro flags sm records hostArg
    exact run_read_error rfl

theorem c7_witness :
    run default_flags (.obj default_state_map) (some (["vm_name"], [])) none =
      ⟨2, none, some "ERROR: Missing required columns: vm_ip_addr, vm_state"⟩ :=
  c7_theorem.1 default_flags (.obj default_state_map) ["vm_name"] [] none
    (by decide) (by decide)

theorem hostvarOf_nonObj_error (row : Row) (hc : containsKey row "vm_state" = true) :
    hostvarOf .nonObj row = Except.error "state_map object has no attribute get" := by
  unfold hostvarOf
  rw [if_pos hc]
  rfl

theorem foldlM_error_of_mem {σ α : Type} (f : σ → α → Except String σ)
    (P : α → Prop) (herr : ∀ s a, P a → ∃ e, f s a = Except.error e) :
    ∀ (l : List α) (s : σ), (∃ a ∈ l, P a) → ∃ e, l.foldlM f s = Except.error e := by
  intro l
  induction l with
  | nil =>
    intro s h
    obtain ⟨a, ha, _⟩ := h
    simp at ha
  | cons a rest ih =>
    intro s h
    rw [List.foldlM_cons]
    cases hf : f s a with
    | error e =>
      exact ⟨e, rfl⟩
    | ok s2 =>
      show ∃ e, rest.foldlM f s2 = Except.error e
      obtain ⟨b, hb, hPb⟩ := h
      rcases List.mem_cons.mp hb with he | hm
      · obtain ⟨e, hfe⟩ := herr s a (he ▸ hPb)
        rw [hf] at hfe
        exact absurd hfe (by intro hcon; exact Except.noConfusion hcon)
      · exact ih s2 ⟨b, hm, hPb⟩

theorem buildMeta_nonObj_error (rows : List Row)
    (h : ∃ row ∈ rows, containsKey row "vm_state" = true) :
    ∃ e, buildMeta .nonObj rows = Except.error e := by
  unfold buildMeta
  refine foldlM_error_of_mem _ (fun row => containsKey row "vm_state" = true) ?_ rows
    ([], []) h
  intro s row hc
  refine ⟨"state_map object has no attribute get", ?_⟩
  show (hostvarOf .nonObj row >>= fun hv => _) = _
  rw [hostvarOf_nonObj_error row hc]
  rfl

theorem build_nonObj_error (flags : Flags) (rows : List Row)
    (h : ∃ row ∈ rows, containsKey row "vm_state" = true) :
    ∃ e, build flags .nonObj rows = Except.error e := by
  obtain ⟨e, he⟩ := buildMeta_nonObj_error rows h
  refine ⟨e, ?_⟩
  unfold build
  show (buildMeta .nonObj rows >>= fun meta => _) = _
  rw [he]
  rfl

/-- C10: a syntactically valid non-object INV_STATE_MAP value is kept as the
state map with no fallback to the built-in table, and any run whose rows carry
a non-empty power-state then fails state normalization and exits 1 without
printing an inventory. -/
theorem c10_theorem :
    (∀ (parseJson : String → Option StateMapVal) (s : String), s ≠ "" →
      parseJson s = some StateMapVal.nonObj →
      load_state_map parseJson (some s) = StateMapVal.nonObj) ∧
    (∀ (flags : Flags) (headers : List String) (records : List (List String))
        (rows : List Row) (hostArg : Option String),
      read headers records = Except.ok rows →
      (∃ row ∈ rows, truthy (dget row "vm_state") = true) →
      (run flags .nonObj (some (headers, records)) hostArg).exitCode = 1 ∧
      (run flags .nonObj (some (headers, records)) hostArg).stdout = none) := by
  constructor
  · intro parseJson s hs hp
    unfold load_state_map
    show (if s ≠ "" then
        (match parseJson s with
         | some v => v
         | none => StateMapVal.obj default_state_map)
      else StateMapVal.obj default_state_map) = _
    rw [if_pos hs, hp]
  · intro flags headers records rows hostArg hread hex
    have hck : ∃ row ∈ rows, containsKey row "vm_state" = true := by
      obtain ⟨row, hr, ht⟩ := hex
      refine ⟨row, hr, ?_⟩
      unfold containsKey
      cases hd : dget row "vm_state" with
      | none => rw [hd] at ht; simp [truthy] at ht
      | some v => rfl
    obtain ⟨e, he⟩ := build_nonObj_error flags rows hck
    rw [run_ok_build_error hread he]
    exact ⟨rfl, rfl⟩

theorem c10_witness :
    load_state_map (fun _ => some StateMapVal.nonObj) (some "[1, 2]") =
      StateMapVal.nonObj ∧
    (run default_flags .nonObj (some (sampleHeaders, sampleRecords)) none).exitCode
      = 1 ∧
    (run default_flags .nonObj (some (sampleHeaders, sampleRecords)) none).stdout
      = none := by
  refine ⟨c10_theorem.1 (fun _ => some StateMapVal.nonObj) "[1, 2]" (by decide) rfl,
    ?_, ?_⟩
  · exact (c10_theorem.2 default_flags sampleHeaders sampleRecords sampleRows none
      rfl (by decide)).1
  · exact (c10_theorem.2 default_flags sampleHeaders sampleRecords sampleRows none
      rfl (by decide)).2

/-- C3 counterexample: a single retained row whose custom-group column repeats
the token a makes the classifier list the host twice inside group a, so the
claimed within-group uniqueness fails on the code. -/
theorem c3_counterexample :
    generate_groups default_flags (.obj default_state_map) dupTokRows =
      Except.ok [("a", ["h1", "h1"]), ("ungrouped", ["h1"])] ∧
    ¬ allNodup [("a", ["h1", "h1"]), ("ungrouped", ["h1"])] := by
  refine ⟨rfl, fun h => ?_⟩
  exact absurd (h ("a", ["h1", "h1"]) (by simp)) (by decide)

/-- C3 (amended): within-group host lists are duplicate-free provided the
retained rows have pairwise-distinct host names and, for each row, the group
names its rules generate together with ungrouped are pairwise distinct;
without those provisos a repeated custom token or a shared host name makes a
host appear twice in one group's list. -/
theorem c3_theorem (flags : Flags) (m : List (String × String)) (rows : List Row)
    (gs : Groups) (hgen : generate_groups flags (.obj m) rows = Except.ok gs)
    (hnd : (rows.map vmName).Nodup)
    (hrown : ∀ row ∈ rows, (rowNames flags m row ++ ["ungrouped"]).Nodup) :
    allNodup gs := by
  have hgs : gs = generate_groupsT flags m rows :=
    Except.ok.inj (hgen.symm.trans (generate_groups_obj flags m rows))
  rw [hgs]
  refine foldT_nodup rows [] [] ?_ ?_ ?_ hnd hrown
  · intro p hp
    simp at hp
  · intro p hp
    simp at hp
  · intro n hn
    simp

theorem c3_witness :
    (sampleRows.map vmName).Nodup ∧ (["vm1"] : List String).Nodup := by
  refine ⟨by decide, ?_⟩
  exact c3_theorem default_flags default_state_map sampleRows
    [("state_poweredon", ["vm1"]), ("ungrouped", ["vm1"])] rfl (by decide)
    (by decide) ("state_poweredon", ["vm1"]) (by decide)

/-- C5: with custom-group classification enabled, a retained row's non-empty
custom-group column is split on commas and the host joins a group named by
each trimmed non-empty token; the host with value a,b lands in groups a and b
and in no group owner_a nor one literally named a,b. -/
theorem c5_theorem :
    (∀ (flags : Flags) (m : List (String × String)) (rows : List Row) (row : Row)
        (v t : String) (gs : Groups),
      row ∈ rows → flags.group_by_custom = true →
      dget row "vm_groups" = some v → v ≠ "" →
      t ∈ (pySplitComma v).map pyStrip → t ≠ "" →
      generate_groups flags (.obj m) rows = Except.ok gs →
      hasHostIn gs t (vmName row)) ∧
    (Except.map (fun gs => (dget gs "a", dget gs "b", dget gs "owner_a", dget gs "a,b"))
      (generate_groups default_flags (.obj default_state_map) abRows) =
      Except.ok (some ["h1"], some ["h1"], none, none)) := by
  constructor
  · intro flags m rows row v t gs hmem hflag hv hvne ht htne hgen
    have hgs : gs = generate_groupsT flags m rows :=
      Except.ok.inj (hgen.symm.trans (generate_groups_obj flags m rows))
    rw [hgs]
    have htn : t ∈ customNames flags row := by
      unfold customNames
      have hc : (flags.group_by_custom && truthy (dget row "vm_groups")) = true := by
        rw [hflag, hv]
        simp [truthy, hvne]
      rw [if_pos hc, hv]
      exact List.mem_filter.mpr ⟨ht, by simp [htne]⟩
    exact foldT_memIn_custom rows [] row hmem htn
  · rfl

theorem c5_witness :
    hasHostIn [("a", ["h1"]), ("b", ["h1"]), ("ungrouped", ["h1"])] "a" "h1" :=
  c5_theorem.1 default_flags default_state_map abRows
    [("vm_name", "h1"), ("vm_groups", "a,b")] "a,b" "a"
    [("a", ["h1"]), ("b", ["h1"]), ("ungrouped", ["h1"])]
    (by decide) rfl rfl (by decide) (by decide) (by decide) rfl

/-- C6 counterexample: a retained row whose vm_uuid cell is present with the
empty string is not the text none, yet the built index carries no entry for
it, contradicting the claim that presence and not-none suffice. -/
theorem c6_counterexample :
    dget ([("vm_name", "vm1"), ("vm_uuid", "")] : Row) "vm_uuid" = some "" ∧
    pyLower "" ≠ "none" ∧
    Except.map (fun inv => dget (docUuidIndex inv) "")
      (build default_flags (.obj default_state_map) emptyUuidRows) =
      Except.ok none := by
  refine ⟨rfl, by decide, rfl⟩

/-- C6 (amended): the UUID index entry for u is the host name of the last
retained row whose vm_uuid cell is present, non-empty, and not the
case-insensitive text none, with value u; so uuid 123 on host vm1 yields an
entry, a cell reading None in any case yields none, and on collisions the
later row overwrites the earlier. -/
theorem c6_theorem :
    (∀ (flags : Flags) (m : List (String × String)) (rows : List Row) (u : String)
        (inv : Document),
      build flags (.obj m) rows = Except.ok inv →
      dget (docUuidIndex inv) u = lastUuidHost rows u) ∧
    (Except.map (fun inv => dget (docUuidIndex inv) "X")
      (build default_flags (.obj default_state_map) uuidRows) =
      Except.ok (some "vm2")) ∧
    (Except.map (fun inv => dget (docUuidIndex inv) "123")
      (build default_flags (.obj default_state_map)
        [[("vm_name", "vm1"), ("vm_uuid", "123")]]) = Except.ok (some "vm1")) ∧
    (Except.map (fun inv => dget (docUuidIndex inv) "None")
      (build default_flags (.obj default_state_map)
        [[("vm_name", "vm1"), ("vm_uuid", "None")]]) = Except.ok none) := by
  refine ⟨?_, rfl, rfl, rfl⟩
  intro flags m rows u inv hbuild
  have hinv : inv = buildT flags m rows :=
    Except.ok.inj (hbuild.symm.trans (build_obj flags m rows))
  rw [hinv, docUuidIndex_buildT, buildMetaT_uuid]

theorem c6_witness : dget (docUuidIndex uuidDoc) "X" = some "vm2" :=
  (c6_theorem.1 default_flags default_state_map uuidRows "X" uuidDoc rfl).trans rfl

end Hosts
